import Mathlib

/-!
Shallow embedding of the price/stock synchronisation logic of the
`seller-apis` repository (files `seller.py` for Ozon and `market.py` for
Yandex Market), together with theorems about the transform engine
(`create_stocks`, `create_prices`, quantity and price normalisation),
the chunked uploader (`divide` plus the sequential batch loops), the
paginated offer listing (`get_offer_ids`), and the top-level
orchestrators (`main` in both files).

Python values are modelled as follows: spreadsheet rows become `Watch`
records whose fields hold the string coercions used by the code;
machine-level exceptions become an explicit `PyErr` sum carried in
`Except`; the network is an input (page responses for listing, one
outcome function per batch for uploads); printing is modelled by the
string the handler would print.
-/

namespace SellerApis

/-- Equality of `Except` results is decidable when both components are. -/
instance {ε α : Type} [DecidableEq ε] [DecidableEq α] : DecidableEq (Except ε α)
  | Except.error e1, Except.error e2 =>
    if h : e1 = e2 then isTrue (congrArg Except.error h)
    else isFalse (fun hc => h (Except.error.inj hc))
  | Except.error _, Except.ok _ => isFalse (fun hc => Except.noConfusion hc)
  | Except.ok _, Except.error _ => isFalse (fun hc => Except.noConfusion hc)
  | Except.ok a1, Except.ok a2 =>
    if h : a1 = a2 then isTrue (congrArg Except.ok h)
    else isFalse (fun hc => h (Except.ok.inj hc))

/-- Python exceptions relevant to the two scripts: `requests.exceptions.ReadTimeout`,
`requests.exceptions.ConnectionError` (carrying `str(error)`), `ValueError`
(raised by `int(...)`), `HTTPError` (from `raise_for_status`), and `NameError`. -/
inductive PyErr where
  | readTimeout : PyErr
  | connectionError : String → PyErr
  | valueError : String → PyErr
  | httpError : String → PyErr
  | nameError : String → PyErr
deriving DecidableEq, Repr

/-- One row of the Casio spreadsheet as used by the code: `kod` is
`str(watch.get("Код"))`, `kolichestvo` is the raw quantity cell (the code
compares `str(...)` of it and feeds it to `int(...)`; the feed delivers it as
a string), `tsena` is the raw price cell `watch.get("Цена")`. -/
structure Watch where
  kod : String
  kolichestvo : String
  tsena : String
deriving DecidableEq, Repr

/-- One entry of the Ozon stock payload, holding an `offer_id` and a
`stock` count (`seller.py`, `create_stocks`). -/
structure StockEntry where
  offer_id : String
  stock : Int
deriving DecidableEq, Repr

/-- One entry of the Ozon price payload (`seller.py`, `create_prices`). -/
structure OzonPrice where
  auto_action_enabled : String
  currency_code : String
  offer_id : String
  old_price : String
  price : String
deriving DecidableEq, Repr

/-- One element of the `items` list of a Yandex stock entry
(`market.py`, `create_stocks`). -/
structure YItem where
  count : Int
  type : String
  updatedAt : String
deriving DecidableEq, Repr

/-- One entry of the Yandex stock payload (`market.py`, `create_stocks`). -/
structure YStockEntry where
  sku : String
  warehouseId : String
  items : List YItem
deriving DecidableEq, Repr

/-- One entry of the Yandex price payload (`market.py`, `create_prices`). -/
structure YPrice where
  id : String
  value : Int
  currencyId : String
deriving DecidableEq, Repr

/-- Value of a non-empty list of decimal digits, most significant first. -/
def digitsVal (cs : List Char) : Nat :=
  cs.foldl (fun n c => 10 * n + (c.toNat - 48)) 0

/-- Whether a string is an optionally signed base-10 integer literal, the
shape accepted by Python `int(...)` on the digit strings this feed produces. -/
def isIntLiteral (s : String) : Bool :=
  match s.toList with
  | '-' :: cs => !cs.isEmpty && cs.all Char.isDigit
  | '+' :: cs => !cs.isEmpty && cs.all Char.isDigit
  | cs => !cs.isEmpty && cs.all Char.isDigit

/-- Signed value of an integer literal given as characters. -/
def intLiteralVal (cs : List Char) : Int :=
  match cs with
  | '-' :: ds => -(digitsVal ds : Int)
  | '+' :: ds => (digitsVal ds : Int)
  | ds => (digitsVal ds : Int)

/-- Python `int(s)`: the base-10 parse of `s`, raising `ValueError` when `s`
is not an optionally signed digit string. -/
def pyInt (s : String) : Except PyErr Int :=
  if isIntLiteral s then
    Except.ok (intLiteralVal s.toList)
  else
    Except.error (PyErr.valueError ("invalid literal for int() with base 10: " ++ s))

/-- Quantity normalisation shared by `seller.create_stocks` (lines 220-226)
and `market.create_stocks` (lines 177-183): the literal `">10"` maps to 100,
the literal `"1"` maps to 0, anything else goes through `int(...)`. -/
def normalizeQuantity (raw : String) : Except PyErr Int :=
  if raw = ">10" then Except.ok 100
  else if raw = "1" then Except.ok 0
  else pyInt raw

/-- `seller.price_conversion` (line 286):
`re.sub("[^0-9]", "", price.split(".")[0])` — the segment before the first
`'.'` (the whole string when there is no dot) with every non-digit removed. -/
def price_conversion (price : String) : String :=
  String.mk ((price.toList.takeWhile (fun c => c != '.')).filter Char.isDigit)

/-- The segment of `s` before its first `'.'` contains no decimal digit. -/
def noDigitBeforeDot (s : String) : Bool :=
  (s.toList.takeWhile (fun c => c != '.')).all (fun c => !c.isDigit)

/-- Matching loop of `seller.create_stocks` (lines 217-228): walk the
spreadsheet rows; a row whose code is in the current offer-id list emits a
stock entry with the normalised quantity and removes that code from the list
(`offer_ids.remove`). Returns the matched entries in row order together with
the leftover offer-id list. A `ValueError` from `int(...)` aborts the run. -/
def create_stocks_loop : List Watch → List String → Except PyErr (List StockEntry × List String)
  | [], ids => Except.ok ([], ids)
  | w :: ws, ids =>
    if w.kod ∈ ids then
      match normalizeQuantity w.kolichestvo with
      | Except.error e => Except.error e
      | Except.ok q =>
        match create_stocks_loop ws (ids.erase w.kod) with
        | Except.error e => Except.error e
        | Except.ok (rest, lids) => Except.ok (⟨w.kod, q⟩ :: rest, lids)
    else create_stocks_loop ws ids

/-- `seller.create_stocks` (lines 217-232): matched entries first, then one
zero-stock entry for every offer id left in the (mutated) offer-id list. -/
def create_stocks (ws : List Watch) (ids : List String) : Except PyErr (List StockEntry) :=
  match create_stocks_loop ws ids with
  | Except.error e => Except.error e
  | Except.ok (m, l) => Except.ok (m ++ l.map (fun i => ⟨i, 0⟩))

/-- Matching loop of `market.create_stocks` (lines 173-197), identical to the
Ozon loop except for the payload shape (`sku`/`warehouseId`/`items`). -/
def y_create_stocks_loop (wh date : String) : List Watch → List String → Except PyErr (List YStockEntry × List String)
  | [], ids => Except.ok ([], ids)
  | w :: ws, ids =>
    if w.kod ∈ ids then
      match normalizeQuantity w.kolichestvo with
      | Except.error e => Except.error e
      | Except.ok q =>
        match y_create_stocks_loop wh date ws (ids.erase w.kod) with
        | Except.error e => Except.error e
        | Except.ok (rest, lids) => Except.ok (⟨w.kod, wh, [⟨q, "FIT", date⟩]⟩ :: rest, lids)
    else y_create_stocks_loop wh date ws ids

/-- `market.create_stocks` (lines 155-213); `wh` is the warehouse id and
`date` the UTC timestamp computed at entry. -/
def y_create_stocks (ws : List Watch) (ids : List String) (wh date : String) : Except PyErr (List YStockEntry) :=
  match y_create_stocks_loop wh date ws ids with
  | Except.error e => Except.error e
  | Except.ok (m, l) => Except.ok (m ++ l.map (fun i => ⟨i, wh, [⟨0, "FIT", date⟩]⟩))

/-- Shape translation from an Ozon stock entry to the corresponding Yandex
stock entry with warehouse `wh` and timestamp `date`. -/
def yOfStock (wh date : String) (e : StockEntry) : YStockEntry :=
  ⟨e.offer_id, wh, [⟨e.stock, "FIT", date⟩]⟩

/-- `seller.create_prices` (lines 253-264): one price entry per row whose
code is in the offer-id list; the list is only read, never mutated.
`price_conversion` is total, so this builder never raises. -/
def seller_create_prices : List Watch → List String → List OzonPrice
  | [], _ => []
  | w :: ws, ids =>
    if w.kod ∈ ids then
      ⟨"UNKNOWN", "RUB", w.kod, "0", price_conversion w.tsena⟩ :: seller_create_prices ws ids
    else seller_create_prices ws ids

/-- `market.create_prices` (lines 233-249): like the Ozon builder but the
payload stores `int(price_conversion(...))`, so an empty digit string raises
`ValueError`. -/
def market_create_prices : List Watch → List String → Except PyErr (List YPrice)
  | [], _ => Except.ok []
  | w :: ws, ids =>
    if w.kod ∈ ids then
      match pyInt (price_conversion w.tsena) with
      | Except.error e => Except.error e
      | Except.ok v =>
        match market_create_prices ws ids with
        | Except.error e => Except.error e
        | Except.ok ps => Except.ok (⟨w.kod, v, "RUR"⟩ :: ps)
    else market_create_prices ws ids

/-- Fuel-indexed body of `divide`; the fuel is an upper bound on the list
length so that the recursion is structural and computations reduce. -/
def divideAux : Nat → List α → Nat → List (List α)
  | 0, _, _ => []
  | _ + 1, [], _ => []
  | _ + 1, _ :: _, 0 => []
  | f + 1, a :: t, m + 1 => (a :: t).take (m + 1) :: divideAux f ((a :: t).drop (m + 1)) (m + 1)

/-- `seller.divide` (lines 305-306): `lst[i : i + n]` for
`i in range(0, len(lst), n)` — contiguous chunks of `n` elements, last chunk
possibly shorter. The source generator raises for step `n = 0`; the model is
only used with positive `n`, where the two agree. -/
def divide (lst : List α) (n : Nat) : List (List α) :=
  divideAux lst.length lst n

/-- Sequential batch loop shared by all four upload routines
(`for some_stock in list(divide(...)): update_...(...)`): issue one call per
batch in order, stopping at the first failing call. Returns the batches
actually sent, in order, and the error of the failing call if any. -/
def runBatches : List (List α) → (List α → Except PyErr Unit) → List (List α) × Option PyErr
  | [], _ => ([], none)
  | b :: bs, call =>
    match call b with
    | Except.error e => ([b], some e)
    | Except.ok _ =>
      let r := runBatches bs call
      (b :: r.1, r.2)

/-- One product object of an Ozon product-list response. -/
structure OzonProduct where
  offer_id : String
deriving DecidableEq, Repr

/-- The `result` object of one Ozon `v2/product/list` response. -/
structure OzonResult where
  items : List OzonProduct
  total : Nat
  last_id : String
deriving DecidableEq, Repr

/-- `seller.get_product_list` (lines 46-61). Line 60 binds
`respons_oebject = response.json()` but line 61 returns
`response_object.get("result")`, an undefined name, so every call raises
`NameError` before the parsed response is read. -/
def seller_get_product_list (last_id : String) (resp : OzonResult) : Except PyErr OzonResult :=
  let respons_oebject := resp
  let _ := respons_oebject
  let _ := last_id
  Except.error (PyErr.nameError "NameError: name response_object is not defined")

/-- The `while True` loop of `seller.get_offer_ids` (lines 85-91), consuming
one prepared page response per request; the cursor starts at `""` and is
replaced by the `last_id` of each response; the loop breaks when the reported
`total` equals the number of accumulated items. An exhausted response list
models a request that gets no answer. -/
def seller_offer_pages : List OzonResult → String → List OzonProduct → Except PyErr (List OzonProduct)
  | [], _, _ => Except.error (PyErr.connectionError "no response from server")
  | p :: ps, last_id, acc =>
    match seller_get_product_list last_id p with
    | Except.error e => Except.error e
    | Except.ok some_prod =>
      let acc2 := acc ++ some_prod.items
      if some_prod.total = acc2.length then Except.ok acc2
      else seller_offer_pages ps some_prod.last_id acc2

/-- `seller.get_offer_ids` (lines 64-95): run the pagination loop, then
extract `offer_id` from every accumulated product. -/
def seller_get_offer_ids (pages : List OzonResult) : Except PyErr (List String) :=
  match seller_offer_pages pages "" [] with
  | Except.error e => Except.error e
  | Except.ok products => Except.ok (products.map OzonProduct.offer_id)

/-- One entry of a Yandex `offer-mapping-entries` response
(`product.get("offer").get("shopSku")`). -/
structure YOffer where
  shopSku : String
deriving DecidableEq, Repr

/-- The `result` object of one Yandex offer-mapping page; `nextPageToken`
is `""` when absent. -/
structure YResult where
  offerMappingEntries : List YOffer
  nextPageToken : String
deriving DecidableEq, Repr

/-- The `while True` loop of `market.get_offer_ids` (lines 143-148), again
consuming one prepared page response per request. The state also records the
page tokens actually sent, so that the request trace is observable; `none`
models a run whose requests outlast the prepared responses. -/
def market_offer_pages : List YResult → String → List YOffer × List String → Option (List YOffer × List String)
  | [], _, _ => none
  | p :: ps, cursor, (acc, reqs) =>
    let reqs2 := reqs ++ [cursor]
    let acc2 := acc ++ p.offerMappingEntries
    if p.nextPageToken = "" then some (acc2, reqs2)
    else market_offer_pages ps p.nextPageToken (acc2, reqs2)

/-- `market.get_offer_ids` (lines 127-152): run the pagination loop starting
from the empty page token, then extract every `shopSku`. Also returns the
trace of page tokens sent. -/
def market_get_offer_ids (pages : List YResult) : Option (List String × List String) :=
  match market_offer_pages pages "" ([], []) with
  | none => none
  | some (prods, reqs) => some (prods.map YOffer.shopSku, reqs)

/-- Network events of an Ozon run: one stock-import or price-import request
per batch. -/
inductive SellerEv where
  | stockUpd : List StockEntry → SellerEv
  | priceUpd : List OzonPrice → SellerEv
deriving DecidableEq, Repr

/-- Network events of a Yandex run, tagged with the campaign id. -/
inductive MarketEv where
  | stockUpd : String → List YStockEntry → MarketEv
  | priceUpd : String → List YPrice → MarketEv
deriving DecidableEq, Repr

/-- Whether a Yandex event is a price update. -/
def MarketEv.isPriceUpd : MarketEv → Bool
  | MarketEv.priceUpd _ _ => true
  | MarketEv.stockUpd _ _ => false

/-- Outcome of one orchestrated run: completed silently, terminated printing
one report from the handler, or crashed on an exception no handler caught. -/
inductive RunOutcome where
  | completed : RunOutcome
  | reported : String → RunOutcome
  | crashed : PyErr → RunOutcome
deriving DecidableEq, Repr

/-- The `except` chain shared by `seller.main` (lines 376-381) and
`market.main` (lines 334-339): `print(...)` output for each caught category.
`print(a, b)` separates its arguments with one space. -/
def top_report : PyErr → String
  | PyErr.readTimeout => "Превышено время ожидания..."
  | PyErr.connectionError m => m ++ " Ошибка соединения"
  | PyErr.valueError m => m ++ " ERROR_2"
  | PyErr.httpError m => m ++ " ERROR_2"
  | PyErr.nameError m => m ++ " ERROR_2"

/-- A batch call that always succeeds. -/
def alwaysOk (_ : α) : Except PyErr Unit :=
  Except.ok ()

/-- `seller.main` (lines 361-381) with its inputs made explicit: the offer-id
fetch result, the spreadsheet fetch result, and one outcome function per
upload endpoint. Everything runs inside the `try`; `create_stocks` mutates
the `offer_ids` list in place, so `create_prices` on line 373 receives only
the leftover (unmatched) ids. Returns the network events that happened and
the run outcome. -/
def seller_main_run (gi : Except PyErr (List String)) (fetchInv : Except PyErr (List Watch))
    (sc : List StockEntry → Except PyErr Unit) (pc : List OzonPrice → Except PyErr Unit) :
    List SellerEv × RunOutcome :=
  match gi with
  | Except.error e => ([], RunOutcome.reported (top_report e))
  | Except.ok offer_ids =>
    match fetchInv with
    | Except.error e => ([], RunOutcome.reported (top_report e))
    | Except.ok ws =>
      match create_stocks_loop ws offer_ids with
      | Except.error e => ([], RunOutcome.reported (top_report e))
      | Except.ok (matched, leftover) =>
        let stocks := matched ++ leftover.map (fun i => ⟨i, 0⟩)
        let rs := runBatches (divide stocks 100) sc
        let evsS := rs.1.map SellerEv.stockUpd
        match rs.2 with
        | some e => (evsS, RunOutcome.reported (top_report e))
        | none =>
          let prices := seller_create_prices ws leftover
          let rp := runBatches (divide prices 900) pc
          let evsP := rp.1.map SellerEv.priceUpd
          match rp.2 with
          | some e => (evsS ++ evsP, RunOutcome.reported (top_report e))
          | none => (evsS ++ evsP, RunOutcome.completed)

/-- What awaiting `market.upload_prices` (lines 252-274) would do for a
given offer-id list: one price-update call per batch of 500. -/
def y_upload_prices_events (campaign : String) (ws : List Watch) (ids : List String) :
    Except PyErr (List MarketEv) :=
  match market_create_prices ws ids with
  | Except.error e => Except.error e
  | Except.ok prices => Except.ok ((divide prices 500).map (MarketEv.priceUpd campaign))

/-- `market.main` (lines 307-339) with its inputs made explicit.
`download_stock()` on line 315 runs before the `try` block, so its failure
escapes every handler. Inside the `try`, each campaign lists its offers,
builds and uploads stocks in batches of 2000, and then calls the async
`upload_prices` without `await` (lines 324 and 333): the coroutine object is
created and discarded, its body never runs, so no price event is emitted
and no exception can arise from it. -/
def market_main_run (fetchInv : Except PyErr (List Watch))
    (giF giD : Except PyErr (List String))
    (scF scD : List YStockEntry → Except PyErr Unit)
    (cF cD whF whD date : String) :
    List MarketEv × RunOutcome :=
  match fetchInv with
  | Except.error e => ([], RunOutcome.crashed e)
  | Except.ok ws =>
    match giF with
    | Except.error e => ([], RunOutcome.reported (top_report e))
    | Except.ok idsF =>
      match y_create_stocks ws idsF whF date with
      | Except.error e => ([], RunOutcome.reported (top_report e))
      | Except.ok stocksF =>
        let rF := runBatches (divide stocksF 2000) scF
        let evsF := rF.1.map (MarketEv.stockUpd cF)
        match rF.2 with
        | some e => (evsF, RunOutcome.reported (top_report e))
        | none =>
          let _coroF := y_upload_prices_events cF ws idsF
          match giD with
          | Except.error e => (evsF, RunOutcome.reported (top_report e))
          | Except.ok idsD =>
            match y_create_stocks ws idsD whD date with
            | Except.error e => (evsF, RunOutcome.reported (top_report e))
            | Except.ok stocksD =>
              let rD := runBatches (divide stocksD 2000) scD
              let evsD := rD.1.map (MarketEv.stockUpd cD)
              match rD.2 with
              | some e => (evsF ++ evsD, RunOutcome.reported (top_report e))
              | none =>
                let _coroD := y_upload_prices_events cD ws idsD
                (evsF ++ evsD, RunOutcome.completed)

/-- A batch call that fails with an HTTP error exactly on the batch `bad`
and succeeds on every other batch. -/
def failOn (bad : List Nat) (b : List Nat) : Except PyErr Unit :=
  if b = bad then Except.error (PyErr.httpError "400 Client Error") else Except.ok ()

/-- Full characterisation of a successfully built Ozon stock payload:
it splits into the matched entries followed by the zero-filled leftovers,
the leftovers are exactly the input offer ids never matched in input order,
the payload keys are a permutation of the input offer ids with no key
repeated, the matched keys follow the spreadsheet row order, and every
matched entry carries the normalised quantity of a row with its code. -/
def StocksCharacterized (ws : List Watch) (ids : List String) (stocks : List StockEntry) : Prop :=
  ∃ m l,
    stocks = m ++ l.map (fun i => ⟨i, 0⟩) ∧
    l = ids.filter (fun i => decide (i ∉ m.map StockEntry.offer_id)) ∧
    (stocks.map StockEntry.offer_id).Perm ids ∧
    (stocks.map StockEntry.offer_id).Nodup ∧
    (m.map StockEntry.offer_id).Sublist (ws.map Watch.kod) ∧
    (∀ e ∈ m, ∃ w ∈ ws, e.offer_id = w.kod ∧ normalizeQuantity w.kolichestvo = Except.ok e.stock)

/-- A run of non-dot characters is taken unchanged by the split at the first
dot. -/
theorem takeWhile_ne_dot_append (cs ds : List Char) (h : ∀ c ∈ cs, (c != '.') = true) :
    List.takeWhile (fun c => c != '.') (cs ++ '.' :: ds) = cs := by
  induction cs with
  | nil => simp [List.takeWhile_cons]
  | cons c cs ih =>
    have hc : (c != '.') = true := h c (List.mem_cons_self c cs)
    simp only [List.cons_append, List.takeWhile_cons, hc, if_true]
    rw [ih (fun x hx => h x (List.mem_cons_of_mem c hx))]

/-- Claim C2 (confirmed): in the stock payload builders, a raw quantity of
exactly `">10"` normalises to 100, exactly `"1"` normalises to 0, and any
other value goes through the base-10 integer parse `int(...)`, which
succeeds exactly on optionally signed digit strings and raises a
`ValueError` otherwise. -/
theorem quantity_normalization_rule :
    normalizeQuantity ">10" = Except.ok 100 ∧
    normalizeQuantity "1" = Except.ok 0 ∧
    (∀ raw : String, raw ≠ ">10" → raw ≠ "1" → normalizeQuantity raw = pyInt raw) ∧
    (∀ raw : String, isIntLiteral raw = true → ∃ n, pyInt raw = Except.ok n) ∧
    (∀ raw : String, isIntLiteral raw = false →
      ∃ m, pyInt raw = Except.error (PyErr.valueError m)) := by
  refine ⟨rfl, rfl, ?_, ?_, ?_⟩
  · intro raw h1 h2
    unfold normalizeQuantity
    rw [if_neg h1, if_neg h2]
  · intro raw h
    exact ⟨intLiteralVal raw.toList, by simp [pyInt, h]⟩
  · intro raw h
    exact ⟨"invalid literal for int() with base 10: " ++ raw, by simp [pyInt, h]⟩

/-- Witness for C2 at the concrete inputs `"7"` and `">10x"`. -/
theorem quantity_normalization_rule_witness :
    normalizeQuantity "7" = pyInt "7" ∧
    (∃ n, pyInt "7" = Except.ok n) ∧
    (∃ m, pyInt ">10x" = Except.error (PyErr.valueError m)) :=
  ⟨quantity_normalization_rule.2.2.1 "7" (by decide) (by decide),
   quantity_normalization_rule.2.2.2.1 "7" (by decide),
   quantity_normalization_rule.2.2.2.2 ">10x" (by decide)⟩

/-- Claim C7 (confirmed): on a price string made of a digit block, a first
dot, and an arbitrary remainder, `price_conversion` returns exactly the
digit block before the first dot. -/
theorem price_conversion_digit_prefix (d rest : String) (h1 : d ≠ "")
    (h2 : d.toList.all Char.isDigit = true) :
    price_conversion (d ++ "." ++ rest) = d := by
  have hdig : ∀ c ∈ d.toList, c.isDigit = true := List.all_eq_true.mp h2
  have hnd : ∀ c ∈ d.toList, (c != '.') = true := by
    intro c hc
    have hd := hdig c hc
    rcases eq_or_ne c '.' with h | h
    · subst h; simp [Char.isDigit] at hd
    · simp [bne_iff_ne, h]
  have hlist : (d ++ "." ++ rest).toList = d.toList ++ '.' :: rest.toList := by
    show (d ++ "." ++ rest).data = d.data ++ '.' :: rest.data
    rw [String.data_append, String.data_append]
    simp
  unfold price_conversion
  rw [hlist, takeWhile_ne_dot_append d.toList rest.toList hnd,
    List.filter_eq_self.mpr (fun c hc => hdig c hc)]
  rfl

/-- Witness for C7 at the concrete input `"5990.00 руб."`. -/
theorem price_conversion_digit_prefix_witness :
    "5990" ≠ "" ∧ price_conversion ("5990" ++ "." ++ "00 руб.") = "5990" :=
  ⟨by decide, price_conversion_digit_prefix "5990" "00 руб." (by decide) (by decide)⟩

/-- Counterexample to claim C5 as stated: on the input `".00 руб."`, which
has no digit before its first dot, `price_conversion` does not fail — it
returns the empty string as an ordinary value, and the Ozon price builder
happily places that empty string into a payload entry. -/
theorem price_conversion_no_failure_cx :
    price_conversion ".00 руб." = "" ∧
    seller_create_prices [⟨"A", "1", ".00 руб."⟩] ["A"] =
      [⟨"UNKNOWN", "RUB", "A", "0", ""⟩] := by
  constructor
  · rfl
  · rfl

/-- Claim C5 (corrected): on every price string with no digit before its
first dot, `price_conversion` returns the empty string (it never raises);
the failure the claim describes only happens downstream in the Yandex
builder, whose `int(price_conversion(...))` raises a `ValueError` on the
empty string, while the Ozon builder forwards the empty string into its
payload. -/
theorem price_conversion_empty_result (s : String) (h : noDigitBeforeDot s = true) :
    price_conversion s = "" ∧
    (∃ m, pyInt (price_conversion s) = Except.error (PyErr.valueError m)) ∧
    (∀ kod kol ids, kod ∈ ids →
      ∃ m, market_create_prices [⟨kod, kol, s⟩] ids = Except.error (PyErr.valueError m)) ∧
    (∀ kod kol ids, kod ∈ ids →
      seller_create_prices [⟨kod, kol, s⟩] ids = [⟨"UNKNOWN", "RUB", kod, "0", ""⟩]) := by
  have hnil : (s.toList.takeWhile (fun c => c != '.')).filter Char.isDigit = [] :=
    List.filter_eq_nil_iff.mpr (fun c hc => by simpa using List.all_eq_true.mp h c hc)
  have hempty : price_conversion s = "" := by
    unfold price_conversion
    rw [hnil]
  have herr : ∃ m, pyInt (price_conversion s) = Except.error (PyErr.valueError m) := by
    rw [hempty]
    exact ⟨"invalid literal for int() with base 10: " ++ "", rfl⟩
  refine ⟨hempty, herr, ?_, ?_⟩
  · intro kod kol ids hmem
    obtain ⟨m, hm⟩ := herr
    refine ⟨m, ?_⟩
    simp only [market_create_prices, if_pos hmem]
    rw [hm]
  · intro kod kol ids hmem
    simp only [seller_create_prices, if_pos hmem, hempty]

/-- Witness for the corrected C5 at the concrete input `"."`. -/
theorem price_conversion_empty_result_witness :
    noDigitBeforeDot "." = true ∧ price_conversion "." = "" :=
  ⟨by decide, (price_conversion_empty_result "." (by decide)).1⟩

/-- `divideAux` on the empty list yields no chunk. -/
theorem divideAux_nil (f n : Nat) : divideAux f ([] : List α) n = [] := by
  cases f <;> rfl

/-- `divideAux` with chunk size zero yields no chunk. -/
theorem divideAux_zero (f : Nat) (l : List α) : divideAux f l 0 = [] := by
  cases f <;> cases l <;> rfl

/-- The fuel of `divideAux` is irrelevant as long as it bounds the list
length. -/
theorem divideAux_of_le (f : Nat) :
    ∀ (f' : Nat) (l : List α) (n : Nat), l.length ≤ f → l.length ≤ f' →
      divideAux f l n = divideAux f' l n := by
  induction f with
  | zero =>
    intro f' l n h h'
    have hl : l = [] := List.eq_nil_of_length_eq_zero (Nat.le_zero.mp h)
    subst hl
    rw [divideAux_nil, divideAux_nil]
  | succ f ih =>
    intro f' l n h h'
    cases l with
    | nil => rw [divideAux_nil, divideAux_nil]
    | cons a t =>
      cases n with
      | zero => rw [divideAux_zero, divideAux_zero]
      | succ m =>
        cases f' with
        | zero => simp at h'
        | succ f' =>
          show (a :: t).take (m + 1) :: divideAux f ((a :: t).drop (m + 1)) (m + 1) =
            (a :: t).take (m + 1) :: divideAux f' ((a :: t).drop (m + 1)) (m + 1)
          have hd : ((a :: t).drop (m + 1)).length ≤ f := by
            rw [List.length_drop]
            simp only [List.length_cons] at h ⊢
            omega
          have hd' : ((a :: t).drop (m + 1)).length ≤ f' := by
            rw [List.length_drop]
            simp only [List.length_cons] at h' ⊢
            omega
          rw [ih f' ((a :: t).drop (m + 1)) (m + 1) hd hd']

/-- `divide` of the empty list yields no batch. -/
theorem divide_nil (n : Nat) : divide ([] : List α) n = [] :=
  rfl

/-- Unfolding equation of `divide` on a non-empty list and positive size. -/
theorem divide_eq_cons (l : List α) (n : Nat) (hl : l ≠ []) (hn : 0 < n) :
    divide l n = l.take n :: divide (l.drop n) n := by
  obtain ⟨a, t, rfl⟩ := List.exists_cons_of_ne_nil hl
  cases n with
  | zero => exact absurd hn (by simp)
  | succ m =>
    show (a :: t).take (m + 1) :: divideAux t.length ((a :: t).drop (m + 1)) (m + 1) =
      (a :: t).take (m + 1) :: divideAux ((a :: t).drop (m + 1)).length ((a :: t).drop (m + 1)) (m + 1)
    have hd : ((a :: t).drop (m + 1)).length ≤ t.length := by
      rw [List.length_drop]
      simp only [List.length_cons]
      omega
    rw [divideAux_of_le t.length ((a :: t).drop (m + 1)).length ((a :: t).drop (m + 1)) (m + 1) hd le_rfl]

/-- Concatenating the batches of `divide` restores the original list. -/
theorem divide_flatten (n : Nat) (hn : 0 < n) :
    ∀ (k : Nat) (l : List α), l.length ≤ k → (divide l n).flatten = l := by
  intro k
  induction k with
  | zero =>
    intro l hl
    have : l = [] := List.eq_nil_of_length_eq_zero (Nat.le_zero.mp hl)
    subst this
    rw [divide_nil]
    rfl
  | succ k ih =>
    intro l hl
    by_cases hnil : l = []
    · subst hnil
      rw [divide_nil]
      rfl
    · rw [divide_eq_cons l n hnil hn, List.flatten_cons,
        ih (l.drop n) ?_, List.take_append_drop]
      rw [List.length_drop]
      have : 0 < l.length := List.length_pos.mpr hnil
      omega

/-- Every batch of `divide` has at most `n` elements. -/
theorem divide_batch_le (n : Nat) (hn : 0 < n) :
    ∀ (k : Nat) (l : List α), l.length ≤ k → ∀ b ∈ divide l n, b.length ≤ n := by
  intro k
  induction k with
  | zero =>
    intro l hl b hb
    have : l = [] := List.eq_nil_of_length_eq_zero (Nat.le_zero.mp hl)
    subst this
    rw [divide_nil] at hb
    exact absurd hb (List.not_mem_nil b)
  | succ k ih =>
    intro l hl b hb
    by_cases hnil : l = []
    · subst hnil
      rw [divide_nil] at hb
      exact absurd hb (List.not_mem_nil b)
    · rw [divide_eq_cons l n hnil hn] at hb
      rcases List.mem_cons.mp hb with hb | hb
      · subst hb
        rw [List.length_take]
        exact min_le_left n l.length
      · refine ih (l.drop n) ?_ b hb
        rw [List.length_drop]
        have : 0 < l.length := List.length_pos.mpr hnil
        omega

/-- Every batch of `divide` except possibly the last has exactly `n`
elements. -/
theorem divide_batch_full (n : Nat) (hn : 0 < n) :
    ∀ (k : Nat) (l : List α), l.length ≤ k → ∀ b ∈ (divide l n).dropLast, b.length = n := by
  intro k
  induction k with
  | zero =>
    intro l hl b hb
    have : l = [] := List.eq_nil_of_length_eq_zero (Nat.le_zero.mp hl)
    subst this
    rw [divide_nil] at hb
    exact absurd hb (List.not_mem_nil b)
  | succ k ih =>
    intro l hl b hb
    by_cases hnil : l = []
    · subst hnil
      rw [divide_nil] at hb
      exact absurd hb (List.not_mem_nil b)
    · rw [divide_eq_cons l n hnil hn] at hb
      have hdlen : (l.drop n).length ≤ k := by
        rw [List.length_drop]
        have : 0 < l.length := List.length_pos.mpr hnil
        omega
      cases hrec : divide (l.drop n) n with
      | nil =>
        rw [hrec] at hb
        simp at hb
      | cons r rs =>
        rw [hrec, List.dropLast_cons₂] at hb
        rcases List.mem_cons.mp hb with hb | hb
        · subst hb
          have hlong : n < l.length := by
            by_contra hle
            have hdn : l.drop n = [] := by
              apply List.eq_nil_of_length_eq_zero
              rw [List.length_drop]
              omega
            rw [hdn, divide_nil] at hrec
            exact absurd hrec (by simp)
          rw [List.length_take]
          omega
        · refine ih (l.drop n) hdlen b ?_
          rw [hrec]
          exact hb

/-- A 2500-element payload divides at limit 2000 into exactly two batches of
sizes 2000 and 500, in order. -/
theorem divide_map_length_2500 (l : List α) (h25 : l.length = 2500) :
    (divide l 2000).map List.length = [2000, 500] := by
  have hne : l ≠ [] := by
    intro h
    subst h
    simp at h25
  rw [divide_eq_cons l 2000 hne (by omega)]
  have hdl : (l.drop 2000).length = 500 := by
    rw [List.length_drop, h25]
  have hne2 : l.drop 2000 ≠ [] := by
    intro h
    rw [h] at hdl
    simp at hdl
  rw [divide_eq_cons (l.drop 2000) 2000 hne2 (by omega)]
  have hdl2 : (l.drop 2000).drop 2000 = [] := by
    apply List.eq_nil_of_length_eq_zero
    rw [List.length_drop, hdl]
  rw [hdl2, divide_nil]
  simp [List.length_take, hdl, h25]

/-- Claim C8 (confirmed): for every list and every positive batch size `n`,
`divide` partitions the list into contiguous order-preserving batches of at
most `n` elements each, only the last batch possibly smaller, whose
concatenation is the original list; `divide` of the empty list yields no
batch; and a 2500-entry payload at limit 2000 yields exactly the batch
sizes 2000 and 500, in order. -/
theorem divide_partition_spec (l : List α) (n : Nat) (hn : 0 < n) :
    (divide l n).flatten = l ∧
    (∀ b ∈ divide l n, b.length ≤ n) ∧
    (∀ b ∈ (divide l n).dropLast, b.length = n) ∧
    divide ([] : List α) n = [] ∧
    (l.length = 2500 → n = 2000 → (divide l n).map List.length = [2000, 500]) := by
  refine ⟨divide_flatten n hn l.length l le_rfl,
    divide_batch_le n hn l.length l le_rfl,
    divide_batch_full n hn l.length l le_rfl,
    divide_nil n, ?_⟩
  intro h25 h2000
  subst h2000
  exact divide_map_length_2500 l h25

/-- Witness for C8 at the concrete inputs of the specification:
`divide [1,2,3,4,5,6] 2` and `divide [1,2,3] 2`. -/
theorem divide_partition_spec_witness :
    divide [1, 2, 3, 4, 5, 6] 2 = [[1, 2], [3, 4], [5, 6]] ∧
    divide [1, 2, 3] 2 = [[1, 2], [3]] ∧
    (0 : Nat) < 2 ∧
    ((divide [1, 2, 3, 4, 5, 6] 2).flatten = [1, 2, 3, 4, 5, 6] ∧
     (∀ b ∈ divide [1, 2, 3, 4, 5, 6] 2, b.length ≤ 2) ∧
     (∀ b ∈ (divide [1, 2, 3, 4, 5, 6] 2).dropLast, b.length = 2) ∧
     divide ([] : List Nat) 2 = [] ∧
     ([1, 2, 3, 4, 5, 6].length = 2500 → 2 = 2000 →
       (divide [1, 2, 3, 4, 5, 6] 2).map List.length = [2000, 500])) :=
  ⟨rfl, rfl, by decide, divide_partition_spec [1, 2, 3, 4, 5, 6] 2 (by decide)⟩

/-- Claim C10 (confirmed): when the batches of a payload split as a prefix
of succeeding batches, one failing batch, and a remainder, the sequential
uploader sends exactly the prefix and the failing batch in order, the
error of the failing call propagates to the caller, and no later batch is
attempted; the batches already sent stay in the trace with no compensating
action. -/
theorem chunked_upload_failure (payload : List α) (n : Nat)
    (call : List α → Except PyErr Unit)
    (bs1 bs2 : List (List α)) (b : List α) (e : PyErr)
    (hdiv : divide payload n = bs1 ++ b :: bs2)
    (hok : ∀ x ∈ bs1, call x = Except.ok ())
    (hfail : call b = Except.error e) :
    runBatches (divide payload n) call = (bs1 ++ [b], some e) := by
  rw [hdiv]
  clear hdiv
  induction bs1 with
  | nil => simp [runBatches, hfail]
  | cons x xs ih =>
    have hx : call x = Except.ok () := hok x (List.mem_cons_self x xs)
    have ih2 := ih (fun y hy => hok y (List.mem_cons_of_mem x hy))
    simp only [List.cons_append, runBatches, hx]
    rw [List.append_eq, ih2]

/-- Witness for C10: five entries in batches of two, with the network
failing on the second batch; the first two batches are sent and the third
is not. -/
theorem chunked_upload_failure_witness :
    divide [1, 2, 3, 4, 5] 2 = [[1, 2]] ++ [3, 4] :: [[5]] ∧
    (∀ x ∈ [[1, 2]], failOn [3, 4] x = Except.ok ()) ∧
    failOn [3, 4] [3, 4] = Except.error (PyErr.httpError "400 Client Error") ∧
    runBatches (divide [1, 2, 3, 4, 5] 2) (failOn [3, 4]) =
      ([[1, 2]] ++ [[3, 4]], some (PyErr.httpError "400 Client Error")) :=
  ⟨rfl, by decide, rfl,
   chunked_upload_failure [1, 2, 3, 4, 5] 2 (failOn [3, 4]) [[1, 2]] [[5]] [3, 4]
     (PyErr.httpError "400 Client Error") rfl (by decide) rfl⟩

/-- Invariant of the Ozon matching loop: the matched keys together with the
leftover ids are a permutation of the input ids, the matched keys follow the
spreadsheet row order, and every matched entry carries the normalised
quantity of a row bearing its code. -/
theorem create_stocks_loop_ok :
    ∀ (ws : List Watch) (ids : List String) (m : List StockEntry) (l : List String),
      create_stocks_loop ws ids = Except.ok (m, l) →
      (m.map StockEntry.offer_id ++ l).Perm ids ∧
      (m.map StockEntry.offer_id).Sublist (ws.map Watch.kod) ∧
      (∀ e ∈ m, ∃ w ∈ ws, e.offer_id = w.kod ∧
        normalizeQuantity w.kolichestvo = Except.ok e.stock) := by
  intro ws
  induction ws with
  | nil =>
    intro ids m l h
    simp only [create_stocks_loop, Except.ok.injEq, Prod.mk.injEq] at h
    obtain ⟨rfl, rfl⟩ := h
    simp
  | cons w ws ih =>
    intro ids m l h
    by_cases hmem : w.kod ∈ ids
    · rw [create_stocks_loop, if_pos hmem] at h
      cases hq : normalizeQuantity w.kolichestvo with
      | error e => simp [hq] at h
      | ok q =>
        cases hrec : create_stocks_loop ws (ids.erase w.kod) with
        | error e => simp [hq, hrec] at h
        | ok p =>
          obtain ⟨m2, l2⟩ := p
          simp only [hq, hrec, Except.ok.injEq, Prod.mk.injEq] at h
          obtain ⟨rfl, rfl⟩ := h
          obtain ⟨hp, hs, hqq⟩ := ih (ids.erase w.kod) m2 l2 hrec
          refine ⟨?_, ?_, ?_⟩
          · simp only [List.map_cons, List.cons_append]
            exact (hp.cons w.kod).trans (List.perm_cons_erase hmem).symm
          · simp only [List.map_cons]
            exact hs.cons₂ w.kod
          · intro e he
            rcases List.mem_cons.mp he with rfl | he2
            · exact ⟨w, List.mem_cons_self w ws, rfl, hq⟩
            · obtain ⟨w2, hw2, h1, h2⟩ := hqq e he2
              exact ⟨w2, List.mem_cons_of_mem w hw2, h1, h2⟩
    · rw [create_stocks_loop, if_neg hmem] at h
      obtain ⟨hp, hs, hqq⟩ := ih ids m l h
      refine ⟨hp, hs.cons w.kod, ?_⟩
      intro e he
      obtain ⟨w2, hw2, h1, h2⟩ := hqq e he
      exact ⟨w2, List.mem_cons_of_mem w hw2, h1, h2⟩

/-- On a duplicate-free id list, the leftover list of the Ozon matching loop
is exactly the input ids never matched, in input order. -/
theorem create_stocks_loop_leftover :
    ∀ (ws : List Watch) (ids : List String) (m : List StockEntry) (l : List String),
      ids.Nodup → create_stocks_loop ws ids = Except.ok (m, l) →
      l = ids.filter (fun i => decide (i ∉ m.map StockEntry.offer_id)) := by
  intro ws
  induction ws with
  | nil =>
    intro ids m l hnd h
    simp only [create_stocks_loop, Except.ok.injEq, Prod.mk.injEq] at h
    obtain ⟨rfl, rfl⟩ := h
    simp
  | cons w ws ih =>
    intro ids m l hnd h
    by_cases hmem : w.kod ∈ ids
    · rw [create_stocks_loop, if_pos hmem] at h
      cases hq : normalizeQuantity w.kolichestvo with
      | error e => simp [hq] at h
      | ok q =>
        cases hrec : create_stocks_loop ws (ids.erase w.kod) with
        | error e => simp [hq, hrec] at h
        | ok p =>
          obtain ⟨m2, l2⟩ := p
          simp only [hq, hrec, Except.ok.injEq, Prod.mk.injEq] at h
          obtain ⟨rfl, rfl⟩ := h
          have ih2 := ih (ids.erase w.kod) m2 l2 (hnd.erase w.kod) hrec
          rw [ih2, List.Nodup.erase_eq_filter hnd w.kod, List.filter_filter]
          apply List.filter_congr
          intro i hi
          by_cases h1 : i = w.kod <;> by_cases h2 : i ∈ m2.map StockEntry.offer_id <;>
            simp [h1, h2]
    · rw [create_stocks_loop, if_neg hmem] at h
      exact ih ids m l hnd h

/-- The Yandex matching loop is the Ozon matching loop reshaped entry by
entry. -/
theorem y_create_stocks_loop_eq (wh date : String) :
    ∀ (ws : List Watch) (ids : List String),
      y_create_stocks_loop wh date ws ids =
        (create_stocks_loop ws ids).map (fun p => (p.1.map (yOfStock wh date), p.2)) := by
  intro ws
  induction ws with
  | nil => intro ids; rfl
  | cons w ws ih =>
    intro ids
    by_cases hmem : w.kod ∈ ids
    · rw [y_create_stocks_loop, create_stocks_loop, if_pos hmem, if_pos hmem]
      cases hq : normalizeQuantity w.kolichestvo with
      | error e => rfl
      | ok q =>
        rw [ih (ids.erase w.kod)]
        cases hrec : create_stocks_loop ws (ids.erase w.kod) with
        | error e => rfl
        | ok p =>
          obtain ⟨m2, l2⟩ := p
          simp [Except.map, yOfStock]
    · rw [y_create_stocks_loop, create_stocks_loop, if_neg hmem, if_neg hmem]
      exact ih ids

/-- The Yandex stock payload is the Ozon stock payload reshaped entry by
entry (same matching, same zero-fill, plus warehouse and timestamp). -/
theorem y_create_stocks_eq (ws : List Watch) (ids : List String) (wh date : String) :
    y_create_stocks ws ids wh date =
      Except.map (List.map (yOfStock wh date)) (create_stocks ws ids) := by
  unfold y_create_stocks create_stocks
  rw [y_create_stocks_loop_eq wh date ws ids]
  cases hrec : create_stocks_loop ws ids with
  | error e => rfl
  | ok p =>
    obtain ⟨m, l⟩ := p
    simp [Except.map, List.map_append, List.map_map, Function.comp, yOfStock]

/-- Claim C1 (corrected, duplicate-free id list added): on every duplicate-free
offer-id list, a successfully built Ozon stock payload consists of the
matched entries in spreadsheet row order followed by one zero-stock entry
for each never-matched id, covers the input ids exactly once each, and
repeats no id; moreover the Yandex builder produces the same payload
reshaped entry by entry. -/
theorem create_stocks_characterization (ws : List Watch) (ids : List String)
    (stocks : List StockEntry) (hnd : ids.Nodup)
    (h : create_stocks ws ids = Except.ok stocks) :
    StocksCharacterized ws ids stocks ∧
    ∀ wh date, y_create_stocks ws ids wh date =
      Except.map (List.map (yOfStock wh date)) (create_stocks ws ids) := by
  refine ⟨?_, fun wh date => y_create_stocks_eq ws ids wh date⟩
  unfold create_stocks at h
  cases hrec : create_stocks_loop ws ids with
  | error e => rw [hrec] at h; cases h
  | ok p =>
    obtain ⟨m, l⟩ := p
    rw [hrec] at h
    have hstocks : stocks = m ++ l.map (fun i => ⟨i, 0⟩) := by
      injection h with h
      exact h.symm
    obtain ⟨hperm, hsub, hq⟩ := create_stocks_loop_ok ws ids m l hrec
    have hleft := create_stocks_loop_leftover ws ids m l hnd hrec
    have hkeys : stocks.map StockEntry.offer_id = m.map StockEntry.offer_id ++ l := by
      have hcomp : StockEntry.offer_id ∘ (fun i : String => (⟨i, 0⟩ : StockEntry)) = id := rfl
      rw [hstocks, List.map_append, List.map_map, hcomp, List.map_id]
    have hp2 : (stocks.map StockEntry.offer_id).Perm ids := by
      rw [hkeys]
      exact hperm
    exact ⟨m, l, hstocks, hleft, hp2, hp2.symm.nodup hnd, hsub, hq⟩

/-- Counterexample to claim C1 as stated: with the duplicated known-id list
`["A", "A"]` and no inventory record, the payload built by `create_stocks`
carries the offer id `"A"` twice, against the claim that no offer id
appears twice. -/
theorem create_stocks_duplicate_ids_cx :
    create_stocks [] ["A", "A"] = Except.ok [⟨"A", 0⟩, ⟨"A", 0⟩] ∧
    ¬ (([⟨"A", 0⟩, ⟨"A", 0⟩] : List StockEntry).map StockEntry.offer_id).Nodup :=
  ⟨rfl, by decide⟩

/-- Witness for the corrected C1: one record matching id `"A"` with quantity
`"3"` against the known ids `["A", "B"]`. -/
theorem create_stocks_characterization_witness :
    (["A", "B"] : List String).Nodup ∧
    create_stocks [⟨"A", "3", "5990.00 руб."⟩] ["A", "B"] =
      Except.ok [⟨"A", 3⟩, ⟨"B", 0⟩] ∧
    (StocksCharacterized [⟨"A", "3", "5990.00 руб."⟩] ["A", "B"] [⟨"A", 3⟩, ⟨"B", 0⟩] ∧
     ∀ wh date, y_create_stocks [⟨"A", "3", "5990.00 руб."⟩] ["A", "B"] wh date =
       Except.map (List.map (yOfStock wh date))
         (create_stocks [⟨"A", "3", "5990.00 руб."⟩] ["A", "B"])) :=
  ⟨by decide, by decide,
   create_stocks_characterization [⟨"A", "3", "5990.00 руб."⟩] ["A", "B"]
     [⟨"A", 3⟩, ⟨"B", 0⟩] (by decide) (by decide)⟩

/-- Claim C3 (code bug): whatever page responses the Ozon API would serve,
`seller.get_offer_ids` never reaches them — its very first
`get_product_list` call raises `NameError` because line 60 binds
`respons_oebject` while line 61 reads the undefined `response_object`, so
the routine never returns the offer ids. -/
theorem ozon_offer_listing_always_fails (p : OzonResult) (ps : List OzonResult) :
    seller_get_offer_ids (p :: ps) =
      Except.error (PyErr.nameError "NameError: name response_object is not defined") :=
  rfl

/-- Hitting the first empty-token page, the Yandex pagination loop returns
the concatenation of all consumed pages and has sent exactly the initial
cursor followed by the non-empty tokens of the earlier pages. -/
theorem market_offer_pages_split :
    ∀ (pre : List YResult) (p : YResult) (post : List YResult) (cursor : String)
      (acc : List YOffer) (reqs : List String),
      (∀ q ∈ pre, q.nextPageToken ≠ "") → p.nextPageToken = "" →
      market_offer_pages (pre ++ p :: post) cursor (acc, reqs) =
        some (acc ++ ((pre ++ [p]).map YResult.offerMappingEntries).flatten,
          reqs ++ cursor :: pre.map YResult.nextPageToken) := by
  intro pre
  induction pre with
  | nil =>
    intro p post cursor acc reqs hpre hp
    rw [List.nil_append, market_offer_pages, if_pos hp]
    simp
  | cons q pre ih =>
    intro p post cursor acc reqs hpre hp
    have hq : q.nextPageToken ≠ "" := hpre q (List.mem_cons_self q pre)
    rw [List.cons_append, market_offer_pages, if_neg hq,
      ih p post q.nextPageToken (acc ++ q.offerMappingEntries) (reqs ++ [cursor])
        (fun x hx => hpre x (List.mem_cons_of_mem q hx)) hp]
    simp [List.append_assoc]

/-- The Yandex offer listing terminates at the first empty-token page,
returns the shopSkus of every consumed page flattened in order, and sends
the empty page token exactly once (as the initial request). -/
theorem market_offer_listing_spec (pre : List YResult) (p : YResult) (post : List YResult)
    (hpre : ∀ q ∈ pre, q.nextPageToken ≠ "") (hp : p.nextPageToken = "") :
    market_get_offer_ids (pre ++ p :: post) =
      some ((((pre ++ [p]).map YResult.offerMappingEntries).flatten).map YOffer.shopSku,
        "" :: pre.map YResult.nextPageToken) ∧
    ("" :: pre.map YResult.nextPageToken).count "" = 1 := by
  constructor
  · unfold market_get_offer_ids
    rw [market_offer_pages_split pre p post "" [] [] hpre hp]
    simp
  · have h0 : (pre.map YResult.nextPageToken).count "" = 0 := by
      apply List.count_eq_zero.mpr
      intro hmem
      obtain ⟨q, hq, hq2⟩ := List.mem_map.mp hmem
      exact hpre q hq hq2
    simp [List.count_cons, h0]

/-- The leftover id list of the Ozon matching loop is a sublist of the
input ids. -/
theorem create_stocks_loop_leftover_sublist :
    ∀ (ws : List Watch) (ids : List String) (m : List StockEntry) (l : List String),
      create_stocks_loop ws ids = Except.ok (m, l) → l.Sublist ids := by
  intro ws
  induction ws with
  | nil =>
    intro ids m l h
    simp only [create_stocks_loop, Except.ok.injEq, Prod.mk.injEq] at h
    obtain ⟨rfl, rfl⟩ := h
    exact List.Sublist.refl ids
  | cons w ws ih =>
    intro ids m l h
    by_cases hmem : w.kod ∈ ids
    · rw [create_stocks_loop, if_pos hmem] at h
      cases hq : normalizeQuantity w.kolichestvo with
      | error e => simp [hq] at h
      | ok q =>
        cases hrec : create_stocks_loop ws (ids.erase w.kod) with
        | error e => simp [hq, hrec] at h
        | ok p =>
          obtain ⟨m2, l2⟩ := p
          simp only [hq, hrec, Except.ok.injEq, Prod.mk.injEq] at h
          obtain ⟨rfl, rfl⟩ := h
          exact (ih (ids.erase w.kod) m2 l2 hrec).trans (List.erase_sublist w.kod ids)
    · rw [create_stocks_loop, if_neg hmem] at h
      exact ih ids m l h

/-- After a successful stock build on a duplicate-free id list, the leftover
ids match no spreadsheet row, so the price builder that `seller.main` feeds
with the mutated list returns the empty payload. -/
theorem seller_leftover_prices_empty :
    ∀ (ws : List Watch) (ids : List String) (m : List StockEntry) (l : List String),
      ids.Nodup → create_stocks_loop ws ids = Except.ok (m, l) →
      seller_create_prices ws l = [] := by
  intro ws
  induction ws with
  | nil => intro ids m l hnd h; rfl
  | cons w ws ih =>
    intro ids m l hnd h
    by_cases hmem : w.kod ∈ ids
    · rw [create_stocks_loop, if_pos hmem] at h
      cases hq : normalizeQuantity w.kolichestvo with
      | error e => simp [hq] at h
      | ok q =>
        cases hrec : create_stocks_loop ws (ids.erase w.kod) with
        | error e => simp [hq, hrec] at h
        | ok p =>
          obtain ⟨m2, l2⟩ := p
          simp only [hq, hrec, Except.ok.injEq, Prod.mk.injEq] at h
          obtain ⟨rfl, rfl⟩ := h
          have hnl : w.kod ∉ l2 := by
            intro hin
            have hsub := create_stocks_loop_leftover_sublist ws (ids.erase w.kod) m2 l2 hrec
            have : w.kod ∈ ids.erase w.kod := hsub.subset hin
            exact ((hnd.mem_erase_iff).mp this).1 rfl
          rw [seller_create_prices, if_neg hnl]
          exact ih (ids.erase w.kod) m2 l2 (hnd.erase w.kod) hrec
    · rw [create_stocks_loop, if_neg hmem] at h
      have hnl : w.kod ∉ l := by
        intro hin
        exact hmem ((create_stocks_loop_leftover_sublist ws ids m l h).subset hin)
      rw [seller_create_prices, if_neg hnl]
      exact ih ids m l hnd h

/-- Claim C4 (code bug): in the Ozon orchestrator `seller.main`, the record
with code `"123"`, quantity `"5"` and a price field matches the known offer
id `"123"` and contributes its stock entry, yet the run completes with no
price-update call at all: `create_stocks` has removed every matched id from
the shared `offer_ids` list, so `create_prices` on line 373 matches nothing
and the price payload is empty. -/
theorem ozon_run_drops_matched_prices :
    seller_main_run (Except.ok ["123"]) (Except.ok [⟨"123", "5", "5990.00 руб."⟩])
      alwaysOk alwaysOk =
      ([SellerEv.stockUpd [⟨"123", 5⟩]], RunOutcome.completed) := by
  decide

/-- No batch of stock updates contributes a price event. -/
theorem all_not_price_map_stockUpd (c : String) (bs : List (List YStockEntry)) :
    ((bs.map (MarketEv.stockUpd c)).all fun e => !e.isPriceUpd) = true := by
  induction bs with
  | nil => rfl
  | cons b bs ih => simp [MarketEv.isPriceUpd, ih]

/-- Claim C6 (code bug): whatever the inputs, a Yandex `market.main` run
emits no price-update request at all — lines 324 and 333 call the async
`upload_prices` without `await`, so the coroutine bodies never execute and
the trace holds only stock updates, for the FBS as well as the DBS
campaign. -/
theorem market_main_never_uploads_prices (fi : Except PyErr (List Watch))
    (giF giD : Except PyErr (List String))
    (scF scD : List YStockEntry → Except PyErr Unit)
    (cF cD whF whD date : String) :
    ((market_main_run fi giF giD scF scD cF cD whF whD date).1).all
      (fun e => !e.isPriceUpd) = true := by
  simp only [market_main_run]
  repeat' split
  all_goals simp [all_not_price_map_stockUpd, List.all_append]

/-- The last element of an appended list is the last element of the second
part when that part is non-empty. -/
theorem getLast?_append_of_ne_nil (l1 l2 : List Char) (h : l2 ≠ []) :
    (l1 ++ l2).getLast? = l2.getLast? := by
  rw [List.getLast?_append]
  cases hq : l2.getLast? with
  | none => exact absurd (List.getLast?_eq_none_iff.mp hq) h
  | some c => rfl

/-- Counterexample to claim C9 as stated: in `market.main` the inventory
download of line 315 runs before the `try` block, so a timeout raised there
is caught by no recovery point — the run crashes unreported instead of
being reported, against the claim that every error of a sync run reaches
the single recovery point. -/
theorem market_download_error_uncaught_cx :
    market_main_run (Except.error PyErr.readTimeout) (Except.ok []) (Except.ok [])
      alwaysOk alwaysOk "FBS" "DBS" "wf" "wd" "t" =
      ([], RunOutcome.crashed PyErr.readTimeout) :=
  rfl

/-- Claim C9 (corrected, Yandex inventory download excluded): every error
raised inside the `try` of either orchestrator propagates unmodified to the
single top-level recovery point, which reports it and ends the run — the
listing stage, the inventory fetch (Ozon), the transform stage and the
batch-upload stage are each shown to surface their error unchanged; the
handler reports a timeout by a fixed message, a connection failure by its
underlying cause, and every other error generically, and the three report
shapes are pairwise distinct. In the Yandex orchestrator the inventory
download precedes the `try`, so its error escapes uncaught. -/
theorem top_level_error_recovery :
    (∀ f sc pc e, seller_main_run (Except.error e) f sc pc =
      ([], RunOutcome.reported (top_report e))) ∧
    (∀ ids sc pc e, seller_main_run (Except.ok ids) (Except.error e) sc pc =
      ([], RunOutcome.reported (top_report e))) ∧
    (∀ ids ws sc pc e, create_stocks_loop ws ids = Except.error e →
      seller_main_run (Except.ok ids) (Except.ok ws) sc pc =
        ([], RunOutcome.reported (top_report e))) ∧
    (∀ ids ws m l sc pc att e, create_stocks_loop ws ids = Except.ok (m, l) →
      runBatches (divide (m ++ l.map fun i => ⟨i, 0⟩) 100) sc = (att, some e) →
      seller_main_run (Except.ok ids) (Except.ok ws) sc pc =
        (att.map SellerEv.stockUpd, RunOutcome.reported (top_report e))) ∧
    (∀ giF giD scF scD cF cD whF whD date e,
      market_main_run (Except.error e) giF giD scF scD cF cD whF whD date =
        ([], RunOutcome.crashed e)) ∧
    (∀ ws giD scF scD cF cD whF whD date e,
      market_main_run (Except.ok ws) (Except.error e) giD scF scD cF cD whF whD date =
        ([], RunOutcome.reported (top_report e))) ∧
    (top_report PyErr.readTimeout = "Превышено время ожидания...") ∧
    (∀ msg, top_report (PyErr.connectionError msg) = msg ++ " Ошибка соединения") ∧
    (∀ msg, top_report (PyErr.valueError msg) = msg ++ " ERROR_2") ∧
    (∀ msg, top_report (PyErr.httpError msg) = msg ++ " ERROR_2") ∧
    (∀ msg, top_report (PyErr.nameError msg) = msg ++ " ERROR_2") ∧
    (∀ msg, top_report (PyErr.connectionError msg) ≠ top_report PyErr.readTimeout) ∧
    (∀ msg, top_report (PyErr.valueError msg) ≠ top_report PyErr.readTimeout) ∧
    (∀ msg msg2, top_report (PyErr.connectionError msg) ≠ top_report (PyErr.valueError msg2)) := by
  refine ⟨fun f sc pc e => rfl, fun ids sc pc e => rfl, ?_, ?_,
    fun giF giD scF scD cF cD whF whD date e => rfl,
    fun ws giD scF scD cF cD whF whD date e => rfl,
    rfl, fun msg => rfl, fun msg => rfl, fun msg => rfl, fun msg => rfl, ?_, ?_, ?_⟩
  · intro ids ws sc pc e h
    simp [seller_main_run, h]
  · intro ids ws m l sc pc att e hloop hrb
    simp only [seller_main_run, hloop]
    rw [hrb]
  · intro msg he
    simp only [top_report] at he
    have hd := congrArg String.data he
    rw [String.data_append] at hd
    have h1 : (msg.data ++ " Ошибка соединения".data).getLast? = some 'я' := by
      rw [getLast?_append_of_ne_nil _ _ (by decide)]
      decide
    rw [hd] at h1
    exact absurd h1 (by decide)
  · intro msg he
    simp only [top_report] at he
    have hd := congrArg String.data he
    rw [String.data_append] at hd
    have h1 : (msg.data ++ " ERROR_2".data).getLast? = some '2' := by
      rw [getLast?_append_of_ne_nil _ _ (by decide)]
      decide
    rw [hd] at h1
    exact absurd h1 (by decide)
  · intro msg msg2 he
    simp only [top_report] at he
    have hd := congrArg String.data he
    rw [String.data_append, String.data_append] at hd
    have h1 : (msg.data ++ " Ошибка соединения".data).getLast? = some 'я' := by
      rw [getLast?_append_of_ne_nil _ _ (by decide)]
      decide
    have h2 : (msg2.data ++ " ERROR_2".data).getLast? = some '2' := by
      rw [getLast?_append_of_ne_nil _ _ (by decide)]
      decide
    rw [hd] at h1
    exact absurd (h1.symm.trans h2) (by decide)

/-- Witness for the corrected C9: a malformed quantity makes the transform
stage raise a `ValueError`, and the Ozon run reports exactly that error
through the generic branch of the handler. -/
theorem top_level_error_recovery_witness :
    create_stocks_loop [⟨"A", "x", "1"⟩] ["A"] =
      Except.error (PyErr.valueError "invalid literal for int() with base 10: x") ∧
    seller_main_run (Except.ok ["A"]) (Except.ok [⟨"A", "x", "1"⟩]) alwaysOk alwaysOk =
      ([], RunOutcome.reported
        (top_report (PyErr.valueError "invalid literal for int() with base 10: x"))) :=
  ⟨by decide,
   top_level_error_recovery.2.2.1 ["A"] [⟨"A", "x", "1"⟩] alwaysOk alwaysOk
     (PyErr.valueError "invalid literal for int() with base 10: x") (by decide)⟩

end SellerApis
